import Mathlib

/-!
Verification of the `deriva_datapackage` offline compatibility client
(`src/deriva_datapackage/__init__.py`).

The development shallowly embeds the parts of the module the properties
talk about:

* `Value`, `Cell`, `Row` model SQL cell values and result rows
  (`record._asdict()` items), with Python truthiness (`if v`) and
  stringification (`str(v)`) as used by `DerivaCompatQuery.entities`.
* `Expr` models the predicate handles produced by
  `DerivaCompatPrimitive` (`==`, `!=`, `in_`, `notin_`, `&`, `|`),
  evaluated with SQL three-valued logic; a `malformed` constructor
  stands for a predicate that the relational engine rejects when the
  query is executed (e.g. one referencing a dropped column).
* `DerivaCompatPkg` models the backing sqlite store (table name ->
  keyed rows); `rowsOf` models `sessionmaker.query(table)`.
* `DerivaCompatTable` and `DerivaCompatQuery` model the facade
  handles.  The Python code accumulates queries as composed closures
  `lambda qs: _query(qs). ...`; the embedding keeps exactly that shape:
  the `query`/`qs` fields are functions that are composed, unapplied,
  during construction and only applied by `DerivaCompatQuery.call`
  (the embedding of `__call__`, i.e. of execution).
* `processResource`/`loadResources` model the per-resource loading loop
  of `DerivaCompatPkg.__init__` (read rows, project to declared fields,
  materialize table, create primary-key/foreign-key indexes), and
  `format_patch` models the descriptor patch helper.
-/

set_option autoImplicit false

namespace DerivaDatapackage

/-- A cell value as stored in the sqlite database / returned in a result
row: `NULL`, a boolean, an integer or a string. -/
inductive Value where
  | vnull
  | vbool (b : Bool)
  | vint (n : Int)
  | vstr (s : String)
deriving DecidableEq, Repr

namespace Value

/-- Python truthiness of a value, as used by the `if v` guard in
`DerivaCompatQuery.entities`. -/
def truthy : Value → Bool
  | vnull => false
  | vbool b => b
  | vint n => n != 0
  | vstr s => s != ""

/-- Python `str(v)`, as used by `DerivaCompatQuery.entities`. -/
def pyStr : Value → String
  | vnull => "None"
  | vbool b => if b then "True" else "False"
  | vint n => toString n
  | vstr s => s

/-- SQL `WHERE`-clause truth of a value: `NULL` and non-truthy values do
not select a row. -/
def sqlTrue : Value → Bool
  | vnull => false
  | vbool b => b
  | vint n => n != 0
  | vstr _ => false

/-- Three-valued view: `NULL` is unknown. -/
def tri : Value → Option Bool
  | vnull => none
  | v => some v.sqlTrue

/-- SQL `=`: `NULL` if either side is `NULL`, else a boolean. -/
def sqlEq : Value → Value → Value
  | vnull, _ => vnull
  | _, vnull => vnull
  | a, b => vbool (a = b)

/-- SQL `!=`: `NULL` if either side is `NULL`, else a boolean. -/
def sqlNe : Value → Value → Value
  | vnull, _ => vnull
  | _, vnull => vnull
  | a, b => vbool (a ≠ b)

/-- SQL three-valued `AND`. -/
def sqlAnd (a b : Value) : Value :=
  match a.tri, b.tri with
  | some false, _ => vbool false
  | _, some false => vbool false
  | some true, some true => vbool true
  | _, _ => vnull

/-- SQL three-valued `OR`. -/
def sqlOr (a b : Value) : Value :=
  match a.tri, b.tri with
  | some true, _ => vbool true
  | _, some true => vbool true
  | some false, some false => vbool false
  | _, _ => vnull

/-- SQL `IN` over a literal list. -/
def sqlIn (a : Value) (vs : List Value) : Value :=
  match a with
  | vnull => vnull
  | _ =>
    if vs.any (fun v => (sqlEq a v).sqlTrue) then vbool true
    else if vs.contains vnull then vnull
    else vbool false

/-- SQL three-valued `NOT`. -/
def sqlNot : Value → Value
  | vnull => vnull
  | v => vbool (!v.sqlTrue)

end Value

/-- One column of a result row: owning table name, column name, value.
A plain `session.query(table)` row carries the cells of that table; a
join extends rows with the joined table's cells. -/
structure Cell where
  table : String
  col : String
  value : Value
deriving DecidableEq, Repr

/-- A result row, as enumerated by an executed query. -/
abbrev Row := List Cell

/-- Look a column of a given table up in a row (first match). -/
def lookupCol (r : Row) (t c : String) : Option Value :=
  (r.find? (fun cell => cell.table == t && cell.col == c)).map Cell.value

/-- The predicate/expression handles built by `DerivaCompatPrimitive`
and `DerivaCompatColumn`: column references, literals, `==`, `!=`,
`in_`, `notin_`, `&`, `|`.  `malformed` stands for an expression the
relational engine rejects at execution time. -/
inductive Expr where
  | col (table colName : String)
  | lit (v : Value)
  | eq (a b : Expr)
  | ne (a b : Expr)
  | conj (a b : Expr)
  | disj (a b : Expr)
  | inVals (a : Expr) (vs : List Value)
  | notinVals (a : Expr) (vs : List Value)
  | malformed (msg : String)
deriving DecidableEq, Repr

/-- Evaluate an expression on a row at execution time.  A reference to
a column the row does not carry, or a `malformed` expression, fails. -/
def Expr.eval : Expr → Row → Except String Value
  | .col t c, r =>
    match lookupCol r t c with
    | some v => .ok v
    | none => .error ("no such column: " ++ t ++ "." ++ c)
  | .lit v, _ => .ok v
  | .eq a b, r => do pure (Value.sqlEq (← a.eval r) (← b.eval r))
  | .ne a b, r => do pure (Value.sqlNe (← a.eval r) (← b.eval r))
  | .conj a b, r => do pure (Value.sqlAnd (← a.eval r) (← b.eval r))
  | .disj a b, r => do pure (Value.sqlOr (← a.eval r) (← b.eval r))
  | .inVals a vs, r => do pure (Value.sqlIn (← a.eval r) vs)
  | .notinVals a vs, r => do pure (Value.sqlNot (Value.sqlIn (← a.eval r) vs))
  | .malformed msg, _ => .error msg

/-- A keyed record, as produced by `resource.read(keyed=True)` and as
stored per table in the sqlite database. -/
abbrev KRow := List (String × Value)

/-- The backing relational store of the offline client: table name ->
rows.  This is the state `DerivaCompatQuery.__call__` reads through the
session; query construction never consults it. -/
structure DerivaCompatPkg where
  tables : List (String × List KRow)
deriving DecidableEq, Repr

/-- Tag a stored keyed record with its table name, producing a result
row. -/
def tagRow (t : String) (kr : KRow) : Row :=
  kr.map (fun p => ⟨t, p.1, p.2⟩)

/-- `sessionmaker.query(table)`: the base row set of a table, fetched
from the store at execution time. -/
def rowsOf (pkg : DerivaCompatPkg) (name : String) : Except String (List Row) :=
  match pkg.tables.lookup name with
  | some krs => .ok (krs.map (tagRow name))
  | none => .error ("no such table: " ++ name)

/-- The type of the accumulated-query closures (`_query` / `_qs` in the
source): a function from the store and a base row set to the executed
result.  Construction composes such functions without applying them. -/
abbrev QFun := DerivaCompatPkg → List Row → Except String (List Row)

/-- Models `DerivaCompatTable`: the wrapped table's name and declared
columns, the owning store, and the accumulated `_qs` closure. -/
structure DerivaCompatTable where
  pkg : DerivaCompatPkg
  name : String
  columns : List String
  qs : QFun

/-- `DerivaCompatTable(pkg, table)` with the default identity `_qs`. -/
def DerivaCompatTable.ofSchema (pkg : DerivaCompatPkg) (name : String)
    (columns : List String) : DerivaCompatTable :=
  ⟨pkg, name, columns, fun _ rows => .ok rows⟩

/-- `DerivaCompatTable.with_qs`: compose a further query transformation
after the table's own accumulated one. -/
def DerivaCompatTable.with_qs (t : DerivaCompatTable) (q : QFun) : DerivaCompatTable :=
  { t with qs := fun pkg rows => do q pkg (← t.qs pkg rows) }

/-- `dict(path, **{k: v})`: update an association list, replacing in
place if the key is present and appending otherwise.  The input list is
returned rebuilt; it is never mutated. -/
def upsert {α : Type} : List (String × α) → String → α → List (String × α)
  | [], k, v => [(k, v)]
  | (k0, v0) :: rest, k, v =>
    if k0 == k then (k, v) :: rest else (k0, v0) :: upsert rest k v

/-- Models `DerivaCompatQuery`: the store, the subject table (the one
`__call__` starts from), the accumulated query closure, and the stored
`_path` mapping. -/
structure DerivaCompatQuery where
  pkg : DerivaCompatPkg
  subj : DerivaCompatTable
  query : QFun
  path : List (String × DerivaCompatTable)

/-- `DerivaCompatQuery.__init__(pkg, subj, query, path)`: stores its
arguments and computes the new path mapping
`dict(path, **{subj.name: subj.with_qs(query)})` — a fresh mapping, the
passed one is not mutated. -/
def mkQuery (pkg : DerivaCompatPkg) (subj : DerivaCompatTable) (query : QFun)
    (path : List (String × DerivaCompatTable)) : DerivaCompatQuery :=
  ⟨pkg, subj, query, upsert path subj.name (subj.with_qs query)⟩

/-- `DerivaCompatQuery.__call__`: execution.  Only here is the store
consulted (`sessionmaker.query(subj())`) and the accumulated closure
applied. -/
def DerivaCompatQuery.call (q : DerivaCompatQuery) : Except String (List Row) := do
  q.query q.pkg (← rowsOf q.pkg q.subj.name)

/-- `qs.filter(clause)` at execution time: keep the rows on which the
clause evaluates SQL-true; evaluation failure fails the query. -/
def qsFilter (e : Expr) : List Row → Except String (List Row)
  | [] => .ok []
  | r :: rs => do
    let v ← e.eval r
    let rest ← qsFilter e rs
    pure (if v.sqlTrue then r :: rest else rest)

/-- The combined rows of one left row with every matching right row. -/
def matchRows (r : Row) (onp : Expr) : List Row → Except String (List Row)
  | [] => .ok []
  | t :: ts => do
    let v ← onp.eval (r ++ t)
    let rest ← matchRows r onp ts
    pure (if v.sqlTrue then (r ++ t) :: rest else rest)

/-- `qs.join(table, on)` at execution time: a plain (inner) join — each
left row paired with each matching right row, unmatched left rows
dropped. -/
def qsJoin (ts : List Row) (onp : Expr) : List Row → Except String (List Row)
  | [] => .ok []
  | r :: rs => do
    let ms ← matchRows r onp ts
    let rest ← qsJoin ts onp rs
    pure (ms ++ rest)

/-- A row of `NULL`s over a table's columns, padding unmatched rows of
an outer join. -/
def nullRow (t : String) (cols : List String) : Row :=
  cols.map (fun c => ⟨t, c, Value.vnull⟩)

/-- `qs.outerjoin(table, on)` at execution time: a left outer join —
unmatched left rows are kept, padded with `NULL`s for the joined
table's columns. -/
def qsOuterJoin (ts : List Row) (tname : String) (cols : List String)
    (onp : Expr) : List Row → Except String (List Row)
  | [] => .ok []
  | r :: rs => do
    let ms ← matchRows r onp ts
    let rest ← qsOuterJoin ts tname cols onp rs
    pure ((if ms.isEmpty then [r ++ nullRow tname cols] else ms) ++ rest)

/-- Keep the first row of each group key, in first-occurrence order. -/
def dedupKeys (seen : List (List Value)) : List (List Value × Row) → List Row
  | [] => []
  | (k, r) :: rest =>
    if seen.contains k then dedupKeys seen rest
    else r :: dedupKeys (k :: seen) rest

/-- `qs.group_by(*clauses)` at execution time: one representative row
per distinct tuple of clause values. -/
def qsGroupBy (es : List Expr) (rs : List Row) : Except String (List Row) := do
  let keyed ← rs.mapM (fun r => do pure ((← es.mapM (fun e => e.eval r)), r))
  pure (dedupKeys [] keyed)

/-- The `join_type` argument of `link`. -/
inductive JoinType where
  | left
  | right
  | full
  | unknown
deriving DecidableEq, Repr

/-- `DerivaCompatQuery.filter(clause)`: a new handle whose closure
composes a filter after the accumulated query; nothing is executed. -/
def DerivaCompatQuery.filter (q : DerivaCompatQuery) (clause : Expr) : DerivaCompatQuery :=
  mkQuery q.pkg q.subj (fun pkg rows => do qsFilter clause (← q.query pkg rows)) q.path

/-- `DerivaCompatQuery.link(other, on, join_type)`: `left` composes a
plain (inner) join with the prior subject table, `full` composes an
outer join with it, `right` and any other kind raise
`NotImplementedError` before any handle is constructed.  The new
handle's subject becomes `other`. -/
def DerivaCompatQuery.link (q : DerivaCompatQuery) (other : DerivaCompatTable)
    (onp : Expr) (join_type : JoinType) : Except String DerivaCompatQuery :=
  match join_type with
  | .left =>
    .ok (mkQuery q.pkg other
      (fun pkg rows => do
        let mid ← q.query pkg rows
        let ts ← rowsOf pkg q.subj.name
        qsJoin ts onp mid)
      q.path)
  | .right => .error "NotImplementedError"
  | .full =>
    .ok (mkQuery q.pkg other
      (fun pkg rows => do
        let mid ← q.query pkg rows
        let ts ← rowsOf pkg q.subj.name
        qsOuterJoin ts q.subj.name q.subj.columns onp mid)
      q.path)
  | .unknown => .error "NotImplementedError"

/-- `DerivaCompatQuery.groupby(*clauses)`. -/
def DerivaCompatQuery.groupby (q : DerivaCompatQuery) (clauses : List Expr) : DerivaCompatQuery :=
  mkQuery q.pkg q.subj (fun pkg rows => do qsGroupBy clauses (← q.query pkg rows)) q.path

/-- `DerivaCompatQuery.pivot(other)`: same accumulated query, new
subject. -/
def DerivaCompatQuery.pivot (q : DerivaCompatQuery) (other : DerivaCompatTable) : DerivaCompatQuery :=
  mkQuery q.pkg other q.query q.path

/-- One entities() mapping for one result row: the subject table's
columns (`record._asdict()`), keeping only truthy values (`if v`),
stringified (`str(v)`). -/
def entityOfRow (subjName : String) (r : Row) : List (String × String) :=
  (r.filter (fun c => c.table == subjName && c.value.truthy)).map
    (fun c => (c.col, c.value.pyStr))

/-- `DerivaCompatQuery.entities()`: execute and convert each row. -/
def DerivaCompatQuery.entities (q : DerivaCompatQuery) :
    Except String (List (List (String × String))) := do
  pure ((← q.call).map (entityOfRow q.subj.name))

/-- `DerivaCompatQuery.count()`: execute and count rows. -/
def DerivaCompatQuery.count (q : DerivaCompatQuery) : Except String Nat := do
  pure (← q.call).length

/-- `DerivaCompatTable._as_query`: wrap the table as a query handle,
passing the default empty path mapping. -/
def DerivaCompatTable.as_query (t : DerivaCompatTable) : DerivaCompatQuery :=
  mkQuery t.pkg t (fun pkg rows => t.qs pkg rows) []

/-- `DerivaCompatTable.filter`. -/
def DerivaCompatTable.filter (t : DerivaCompatTable) (selector : Expr) : DerivaCompatQuery :=
  t.as_query.filter selector

/-- `DerivaCompatTable.link`. -/
def DerivaCompatTable.link (t : DerivaCompatTable) (other : DerivaCompatTable)
    (onp : Expr) (join_type : JoinType) : Except String DerivaCompatQuery :=
  t.as_query.link other onp join_type

/-- `DerivaCompatTable.entities` (without the optional progress bar). -/
def DerivaCompatTable.entities (t : DerivaCompatTable) :
    Except String (List (List (String × String))) :=
  t.as_query.entities

/-- `DerivaCompatTable.count`. -/
def DerivaCompatTable.count (t : DerivaCompatTable) : Except String Nat :=
  t.as_query.count

/-- One step of a query-construction chain. -/
inductive BuildOp where
  | filterStep (e : Expr)
  | linkStep (t : DerivaCompatTable) (onp : Expr) (jt : JoinType)
  | groupbyStep (es : List Expr)
  | pivotStep (t : DerivaCompatTable)

/-- Apply one construction step to a query handle. -/
def applyOp (q : DerivaCompatQuery) : BuildOp → Except String DerivaCompatQuery
  | .filterStep e => .ok (q.filter e)
  | .linkStep t onp jt => q.link t onp jt
  | .groupbyStep es => .ok (q.groupby es)
  | .pivotStep t => .ok (q.pivot t)

/-- Apply a whole construction chain. -/
def buildChain (q : DerivaCompatQuery) : List BuildOp → Except String DerivaCompatQuery
  | [] => .ok q
  | op :: ops => do buildChain (← applyOp q op) ops

/-- A step is supported when it is not a `link` with an unimplemented
join kind. -/
def BuildOp.supported : BuildOp → Prop
  | .linkStep _ _ jt => jt = JoinType.left ∨ jt = JoinType.full
  | _ => True

/-- Replace the store a query handle points at (used to express that
construction does not read the store). -/
def DerivaCompatQuery.withPkg (q : DerivaCompatQuery) (p : DerivaCompatPkg) : DerivaCompatQuery :=
  { q with pkg := p }

/-- `DERIVA_col_in`'s accumulation loop: `f = None`, then for each
element `f = (col == el)` if `f` is `None` else `f | (col == el)`. -/
def colInFold (col : Expr) (f : Option Expr) : List Value → Option Expr
  | [] => f
  | el :: rest =>
    colInFold col
      (some (match f with
        | none => Expr.eq col (Expr.lit el)
        | some f0 => Expr.disj f0 (Expr.eq col (Expr.lit el))))
      rest

/-- `DERIVA_col_in(qs, col, arr)`: the original query when `arr` is
empty, else `qs.filter` of the OR-of-equalities predicate. -/
def DERIVA_col_in (qs : DerivaCompatQuery) (col : Expr) (arr : List Value) : DerivaCompatQuery :=
  match colInFold col none arr with
  | none => qs
  | some f => qs.filter f

/-- A declared CSV dialect in a resource descriptor. -/
structure Dialect where
  delimiter : String
  doubleQuote : Bool
  lineTerminator : String
  skipInitialSpace : Bool
  header : Bool
deriving DecidableEq, Repr

/-- The part of a resource descriptor `format_patch` looks at: the file
path, the optional `dialect` key and the optional `format` key (whose
value may itself be the null/auto format). -/
structure Descriptor where
  path : String
  dialect : Option Dialect
  format : Option (Option String)
deriving DecidableEq, Repr

/-- Python `s.endswith(suffix)`. -/
def strEndsWith (s suffix : String) : Bool :=
  suffix.data.isSuffixOf s.data

/-- The canonical TSV dialect injected by `format_patch`. -/
def tsvDialect : Dialect :=
  ⟨"\t", false, "\n", true, true⟩

/-- `format_patch(rc)`: inject the TSV dialect for `.tsv` paths with no
declared dialect; otherwise declare the absent/auto format when none is
declared; always return the (patched) resource. -/
def format_patch (rc : Descriptor) : Descriptor :=
  if strEndsWith rc.path ".tsv" && rc.dialect.isNone then
    { rc with dialect := some tsvDialect }
  else if rc.format.isNone then
    { rc with format := some none }
  else
    rc

/-- A resource schema: declared field names, primary-key fields,
foreign-key field groups. -/
structure Schema where
  fields : List String
  primaryKey : List String
  foreignKeys : List (List String)
deriving DecidableEq, Repr

/-- The error raised by `resource.read(keyed=True)`: the message and the
embedded per-row error detail (`e.errors`). -/
structure ReadError where
  message : String
  errors : List String
deriving DecidableEq, Repr

/-- One entry of the `rcs` grouping in `DerivaCompatPkg.__init__`: a
resource name, its schema (from the first contributing resource), and
the outcome of reading each contributing resource's rows. -/
structure ResourceGroup where
  name : String
  schema : Schema
  reads : List (Except ReadError (List KRow))

/-- The list comprehension
`[record for resource in rcs for record in resource.read(keyed=True)]`:
concatenate all reads; the first failing read aborts with its error. -/
def concatReads : List (Except ReadError (List KRow)) → Except ReadError (List KRow)
  | [] => .ok []
  | r :: rest => do pure ((← r) ++ (← concatReads rest))

/-- A materialized table: columns, rows, and the primary key applied as
the row-identity index (none when the resource was empty). -/
structure LoadedTable where
  columns : List String
  rows : List KRow
  pk : Option (List String)
deriving DecidableEq

/-- A named index created over a materialized table. -/
structure IndexSpec where
  table : String
  idxName : String
  columns : List String
deriving DecidableEq

/-- The state built up by the loading loop: materialized tables and
created indexes. -/
structure Store where
  tables : List (String × LoadedTable)
  indexes : List IndexSpec
deriving DecidableEq

/-- `pd.DataFrame(raw_data)[[field names]]`: project a keyed record to
the declared fields, in schema order. -/
def projectFields (fields : List String) (kr : KRow) : KRow :=
  fields.map (fun f => (f, (kr.lookup f).getD Value.vnull))

/-- `'_'.join(['idx', resource_name, *cols])`. -/
def indexName (rname : String) (cols : List String) : String :=
  String.intercalate "_" ("idx" :: rname :: cols)

/-- One iteration of the loading loop of `DerivaCompatPkg.__init__`:
read all contributing rows (a failure propagates the read error),
materialize the table (replacing any previous one), then — only when
rows exist — create the primary-key index and one index per
foreign-key group.  When rows exist, `set_index(primaryKey)` plus
`to_sql(index=True, index_label=primaryKey)` writes the primary-key
columns back, so the columns are the declared fields and the primary
key is the row-identity index.  When no rows exist the index is never
set, and `to_sql(index=True, index_label=None)` writes the dataframe's
unnamed `RangeIndex` as an extra leading `index` column: the empty
table gets `index` plus the declared fields and no primary key. -/
def processResource (st : Store) (g : ResourceGroup) : Except ReadError Store := do
  let raw ← concatReads g.reads
  let isEmpty := raw.isEmpty
  let rows := raw.map (projectFields g.schema.fields)
  let tbl : LoadedTable :=
    if isEmpty then ⟨"index" :: g.schema.fields, [], none⟩
    else ⟨g.schema.fields, rows, some g.schema.primaryKey⟩
  let st1 : Store := { st with tables := upsert st.tables g.name tbl }
  if isEmpty then
    pure st1
  else
    pure { st1 with
      indexes := st1.indexes ++
        (⟨g.name, indexName g.name g.schema.primaryKey, g.schema.primaryKey⟩ ::
          g.schema.foreignKeys.map (fun fks => ⟨g.name, indexName g.name fks, fks⟩)) }

/-- The loading loop over all grouped resources: each completed
resource commits its tables and indexes; the first failure stops the
loop, keeping what was committed before it and propagating the read
error. -/
def loadResources (st : Store) : List ResourceGroup → Store × Option ReadError
  | [] => (st, none)
  | g :: gs =>
    match processResource st g with
    | .error e => (st, some e)
    | .ok st1 => loadResources st1 gs

/-- The OR-of-equalities predicate over a non-empty candidate list, as
the spec describes it: `c == v0 | c == v1 | ...`, associated to the
left. -/
def orOfEqs (c : Expr) (v0 : Value) (vs : List Value) : Expr :=
  vs.foldl (fun acc v => Expr.disj acc (Expr.eq c (Expr.lit v))) (Expr.eq c (Expr.lit v0))

/-- Executed semantics of a plain (inner) join, stated from the spec:
each left row paired with each matching right row. -/
def innerJoinSpec (ts : List Row) (p : Row → Bool) : List Row → List Row
  | [] => []
  | r :: rs =>
    ((ts.filter fun t => p (r ++ t)).map (fun t => r ++ t)) ++ innerJoinSpec ts p rs

/-- Executed semantics of a left outer join, stated from the spec:
matched pairs, and unmatched left rows padded with `pad`. -/
def outerJoinSpec (ts : List Row) (pad : Row) (p : Row → Bool) : List Row → List Row
  | [] => []
  | r :: rs =>
    (let ms := (ts.filter fun t => p (r ++ t)).map (fun t => r ++ t)
     if ms.isEmpty then [r ++ pad] else ms) ++ outerJoinSpec ts pad p rs

/-- A small concrete store used to instantiate the theorems: an `item`
table with two rows (the second with an empty name and a dangling
category reference) and a one-row `category` table. -/
def egPkg : DerivaCompatPkg :=
  ⟨[("item",
      [[("id", Value.vint 1), ("name", Value.vstr "apple"), ("category_id", Value.vint 10)],
       [("id", Value.vint 2), ("name", Value.vstr ""), ("category_id", Value.vint 99)]]),
    ("category",
      [[("id", Value.vint 10), ("title", Value.vstr "fruit")],
       [("id", Value.vint 77), ("title", Value.vstr "unused")]])]⟩

/-- Table handle for the concrete `item` table. -/
def egItem : DerivaCompatTable :=
  DerivaCompatTable.ofSchema egPkg "item" ["id", "name", "category_id"]

/-- Table handle for the concrete `category` table. -/
def egCategory : DerivaCompatTable :=
  DerivaCompatTable.ofSchema egPkg "category" ["id", "title"]

/-- The base query handle over the concrete `item` table. -/
def egQ : DerivaCompatQuery :=
  egItem.as_query

/-- The first `item` row, tagged as a result row. -/
def egRow1 : Row :=
  [⟨"item", "id", Value.vint 1⟩, ⟨"item", "name", Value.vstr "apple"⟩,
   ⟨"item", "category_id", Value.vint 10⟩]

/-- The second `item` row, tagged as a result row. -/
def egRow2 : Row :=
  [⟨"item", "id", Value.vint 2⟩, ⟨"item", "name", Value.vstr ""⟩,
   ⟨"item", "category_id", Value.vint 99⟩]

/-- The first `category` row, tagged as a result row. -/
def egCatRow : Row :=
  [⟨"category", "id", Value.vint 10⟩, ⟨"category", "title", Value.vstr "fruit"⟩]

/-- The second `category` row (matched by no item), tagged as a result
row. -/
def egCatRowB : Row :=
  [⟨"category", "id", Value.vint 77⟩, ⟨"category", "title", Value.vstr "unused"⟩]

/-- A construction chain used to instantiate C1: it contains a
malformed filter predicate, a group-by, both supported link kinds and a
pivot, and one predicate referencing a non-existent column. -/
def egOps : List BuildOp :=
  [BuildOp.filterStep (Expr.malformed "boom"),
   BuildOp.groupbyStep [Expr.col "item" "id"],
   BuildOp.linkStep egCategory
     (Expr.eq (Expr.col "item" "category_id") (Expr.col "category" "id")) JoinType.left,
   BuildOp.pivotStep egItem,
   BuildOp.linkStep egItem (Expr.col "nope" "nope") JoinType.full]

/-- A resource group that loads fine: one contributing read with one
row. -/
def egGroupGood : ResourceGroup :=
  ⟨"good", ⟨["id", "name"], ["id"], []⟩,
    [.ok [[("id", Value.vint 1), ("name", Value.vstr "a")]]]⟩

/-- A concrete read error with embedded per-row detail (`e.errors`). -/
def egReadErr : ReadError :=
  ⟨"parse failure", ["row 2: invalid integer"]⟩

/-- A resource group whose second contributing read fails. -/
def egGroupBad : ResourceGroup :=
  ⟨"bad", ⟨["id"], ["id"], []⟩,
    [.ok [[("id", Value.vint 1)]], .error egReadErr]⟩

/-- A resource group contributing zero rows. -/
def egGroupEmpty : ResourceGroup :=
  ⟨"emptyrc", ⟨["id", "note"], ["id"], [["note"]]⟩, [.ok []]⟩

/-- The empty store. -/
def egEmptyStore : Store :=
  ⟨[], []⟩

/-- The store produced by loading `egGroupGood` into an empty store. -/
def egStoreGood : Store :=
  ⟨[("good", ⟨["id", "name"], [[("id", Value.vint 1), ("name", Value.vstr "a")]], some ["id"]⟩)],
   [⟨"good", "idx_good_id", ["id"]⟩]⟩

/-! ## Basic lemmas -/

@[simp]
theorem except_bind_ok {ε α β : Type} (a : α) (f : α → Except ε β) :
    (Except.ok a : Except ε α) >>= f = f a := rfl

@[simp]
theorem except_bind_error {ε α β : Type} (e : ε) (f : α → Except ε β) :
    (Except.error e : Except ε α) >>= f = Except.error e := rfl

@[simp]
theorem except_pure_eq_ok {ε α : Type} (a : α) :
    (pure a : Except ε α) = Except.ok a := rfl

theorem Value.tri_none_sqlTrue {v : Value} (h : v.tri = none) : v.sqlTrue = false := by
  cases v <;> simp_all [Value.tri, Value.sqlTrue]

theorem Value.tri_some_sqlTrue {v : Value} {x : Bool} (h : v.tri = some x) : v.sqlTrue = x := by
  cases v <;> simp_all [Value.tri, Value.sqlTrue]

theorem Value.sqlTrue_sqlOr (a b : Value) :
    (Value.sqlOr a b).sqlTrue = (a.sqlTrue || b.sqlTrue) := by
  unfold Value.sqlOr
  cases ha : a.tri <;> cases hb : b.tri
  · rw [Value.tri_none_sqlTrue ha, Value.tri_none_sqlTrue hb]
    rfl
  · rename_i xb
    rw [Value.tri_none_sqlTrue ha, Value.tri_some_sqlTrue hb]
    cases xb <;> rfl
  · rename_i xa
    rw [Value.tri_some_sqlTrue ha, Value.tri_none_sqlTrue hb]
    cases xa <;> rfl
  · rename_i xa xb
    rw [Value.tri_some_sqlTrue ha, Value.tri_some_sqlTrue hb]
    cases xa <;> cases xb <;> rfl

theorem Value.sqlTrue_sqlAnd (a b : Value) :
    (Value.sqlAnd a b).sqlTrue = (a.sqlTrue && b.sqlTrue) := by
  unfold Value.sqlAnd
  cases ha : a.tri <;> cases hb : b.tri
  · rw [Value.tri_none_sqlTrue ha, Value.tri_none_sqlTrue hb]
    rfl
  · rename_i xb
    rw [Value.tri_none_sqlTrue ha, Value.tri_some_sqlTrue hb]
    cases xb <;> rfl
  · rename_i xa
    rw [Value.tri_some_sqlTrue ha, Value.tri_none_sqlTrue hb]
    cases xa <;> rfl
  · rename_i xa xb
    rw [Value.tri_some_sqlTrue ha, Value.tri_some_sqlTrue hb]
    cases xa <;> cases xb <;> rfl

theorem Value.sqlEq_nonnull {a b : Value} (ha : a ≠ Value.vnull) (hb : b ≠ Value.vnull) :
    Value.sqlEq a b = Value.vbool (a = b) := by
  cases a <;> cases b <;> simp_all [Value.sqlEq]

/-! ## C7: unsupported join kind -/

/-- C7: for every query handle `q`, table handle `t` and predicate `p`,
`q.link(t, p, join_type='right')` raises `NotImplementedError`
immediately at the call: the result is the error, no new query handle
is constructed and nothing is executed, so the call never degrades to a
different join kind. -/
theorem c7_link_right_raises (q : DerivaCompatQuery) (t : DerivaCompatTable) (p : Expr) :
    q.link t p JoinType.right = Except.error "NotImplementedError" := rfl

/-! ## C8: format_patch -/

/-- C8: `format_patch` on a resource descriptor: if the path ends in
`.tsv` and no dialect is declared, it injects the canonical TSV dialect
(tab delimiter, no double-quote escaping, newline line terminator,
leading-space skipping, header row present) and changes nothing else;
otherwise, if no format is declared, it declares the absent/auto format
(`format = None`) and changes nothing else; otherwise it returns the
resource unchanged.  In every case the (same, possibly patched)
resource is returned. -/
theorem c8_format_patch (rc : Descriptor) :
    (strEndsWith rc.path ".tsv" = true → rc.dialect = none →
      format_patch rc =
        { rc with dialect := some (Dialect.mk "\t" false "\n" true true) }) ∧
    (¬(strEndsWith rc.path ".tsv" = true ∧ rc.dialect = none) → rc.format = none →
      format_patch rc = { rc with format := some none }) ∧
    (¬(strEndsWith rc.path ".tsv" = true ∧ rc.dialect = none) → rc.format ≠ none →
      format_patch rc = rc) := by
  refine ⟨?_, ?_, ?_⟩
  · intro h1 h2
    have hc : (strEndsWith rc.path ".tsv" && rc.dialect.isNone) = true := by
      simp [h1, h2]
    simp [format_patch, hc, tsvDialect]
  · intro h1 h2
    have hc : (strEndsWith rc.path ".tsv" && rc.dialect.isNone) = false := by
      cases hp : strEndsWith rc.path ".tsv"
      · simp
      · cases hd : rc.dialect
        · exact absurd ⟨hp, hd⟩ h1
        · simp
    simp [format_patch, hc, h2]
  · intro h1 h2
    have hc : (strEndsWith rc.path ".tsv" && rc.dialect.isNone) = false := by
      cases hp : strEndsWith rc.path ".tsv"
      · simp
      · cases hd : rc.dialect
        · exact absurd ⟨hp, hd⟩ h1
        · simp
    have hf : rc.format.isNone = false := by
      cases hfv : rc.format
      · exact absurd hfv h2
      · simp
    simp [format_patch, hc, hf]

/-- Witness for C8: a `.tsv` resource with no declared dialect gets the
canonical TSV dialect. -/
theorem c8_format_patch_witness :
    format_patch ⟨"data.tsv", none, none⟩ =
      ⟨"data.tsv",
        some (Dialect.mk "\t" false "\n" true true),
        none⟩ :=
  (c8_format_patch ⟨"data.tsv", none, none⟩).1 (by decide) rfl

/-! ## Execution lemmas for the query facade -/

theorem call_filter (q : DerivaCompatQuery) (e : Expr) :
    (q.filter e).call = q.call >>= qsFilter e := by
  unfold DerivaCompatQuery.filter mkQuery DerivaCompatQuery.call
  cases h1 : rowsOf q.pkg q.subj.name with
  | error m => rfl
  | ok base =>
    cases h2 : q.query q.pkg base with
    | error m => simp [h2]
    | ok rows => simp [h2]

theorem qsFilter_pointwise (e : Expr) (p : Row → Bool) :
    ∀ rs : List Row, (∀ r ∈ rs, ∃ v, e.eval r = .ok v ∧ v.sqlTrue = p r) →
      qsFilter e rs = .ok (rs.filter p)
  | [], _ => by simp [qsFilter]
  | r :: rs, h => by
    obtain ⟨v, hv, hs⟩ := h r (by simp)
    have ih := qsFilter_pointwise e p rs (fun r2 h2 => h r2 (by simp [h2]))
    unfold qsFilter
    rw [hv]
    simp only [except_bind_ok, ih, except_pure_eq_ok, hs, List.filter_cons]

theorem colInFold_some (c : Expr) (f0 : Expr) :
    ∀ vs : List Value,
      colInFold c (some f0) vs =
        some (vs.foldl (fun acc v => Expr.disj acc (Expr.eq c (Expr.lit v))) f0)
  | [] => rfl
  | v :: rest => by
    unfold colInFold
    rw [colInFold_some c (Expr.disj f0 (Expr.eq c (Expr.lit v))) rest]
    rfl

theorem DERIVA_col_in_cons (q : DerivaCompatQuery) (c : Expr) (v0 : Value) (vs : List Value) :
    DERIVA_col_in q c (v0 :: vs) = q.filter (orOfEqs c v0 vs) := by
  unfold DERIVA_col_in
  have h : colInFold c none (v0 :: vs) = some (orOfEqs c v0 vs) := by
    unfold colInFold
    exact colInFold_some c (Expr.eq c (Expr.lit v0)) vs
  rw [h]

theorem eval_orFold (c : Expr) (r : Row) (w : Value) (hw : c.eval r = .ok w) :
    ∀ (vs : List Value) (f0 : Expr) (b0 : Value), f0.eval r = .ok b0 →
      ∃ b, (vs.foldl (fun acc v => Expr.disj acc (Expr.eq c (Expr.lit v))) f0).eval r = .ok b ∧
        b.sqlTrue = (b0.sqlTrue || vs.any fun v => (Value.sqlEq w v).sqlTrue)
  | [], f0, b0, h0 => ⟨b0, by simpa using h0, by simp⟩
  | v :: rest, f0, b0, h0 => by
    have hstep : (Expr.disj f0 (Expr.eq c (Expr.lit v))).eval r =
        .ok (Value.sqlOr b0 (Value.sqlEq w v)) := by
      simp [Expr.eval, h0, hw]
    obtain ⟨b, hb, hbs⟩ :=
      eval_orFold c r w hw rest (Expr.disj f0 (Expr.eq c (Expr.lit v)))
        (Value.sqlOr b0 (Value.sqlEq w v)) hstep
    refine ⟨b, by simpa [List.foldl] using hb, ?_⟩
    rw [hbs, Value.sqlTrue_sqlOr]
    simp [Bool.or_assoc]

/-! ## C5: DERIVA_col_in -/

/-- C5: `DERIVA_col_in(q, c, vs)` returns the original query handle
itself, unfiltered, when `vs` is empty; when `vs` is non-empty it
returns `q.filter(f)` for `f` the OR of the equality predicates
`c == v`, and its executed result set consists of exactly those rows of
`q` whose `c`-value equals at least one candidate (for non-`NULL`
column values and candidates, where SQL equality coincides with
equality). -/
theorem c5_col_in (q : DerivaCompatQuery) (c : Expr) (vs : List Value)
    (rs : List Row) (cv : Row → Value)
    (hcall : q.call = .ok rs)
    (hc : ∀ r ∈ rs, c.eval r = .ok (cv r))
    (hnn : ∀ r ∈ rs, cv r ≠ Value.vnull)
    (hvs : ∀ v ∈ vs, v ≠ Value.vnull) :
    DERIVA_col_in q c [] = q ∧
    (vs ≠ [] → ∃ v0 rest, vs = v0 :: rest ∧ DERIVA_col_in q c vs = q.filter (orOfEqs c v0 rest)) ∧
    (vs ≠ [] → (DERIVA_col_in q c vs).call =
      .ok (rs.filter fun r => vs.contains (cv r))) := by
  refine ⟨rfl, ?_, ?_⟩
  · intro hne
    match vs with
    | v0 :: rest => exact ⟨v0, rest, rfl, DERIVA_col_in_cons q c v0 rest⟩
  · intro hne
    match vs, hvs with
    | v0 :: rest, hvs =>
      rw [DERIVA_col_in_cons q c v0 rest, call_filter, hcall, except_bind_ok]
      apply qsFilter_pointwise
      intro r hr
      obtain ⟨b, hb, hbs⟩ :=
        eval_orFold c r (cv r) (hc r hr) rest (Expr.eq c (Expr.lit v0))
          (Value.sqlEq (cv r) v0)
          (by simp [Expr.eval, hc r hr])
      refine ⟨b, hb, ?_⟩
      rw [hbs, Bool.eq_iff_iff]
      have hl : ∀ v ∈ v0 :: rest, ((Value.sqlEq (cv r) v).sqlTrue = true ↔ cv r = v) := by
        intro v hv
        rw [Value.sqlEq_nonnull (hnn r hr) (hvs v hv)]
        simp [Value.sqlTrue]
      rw [List.elem_iff]
      constructor
      · intro h
        rcases Bool.or_eq_true _ _ |>.mp h with h1 | h2
        · rw [hl v0 (by simp) |>.mp h1]
          simp
        · obtain ⟨v, hv, hfv⟩ := List.any_eq_true.mp h2
          rw [hl v (List.mem_cons_of_mem v0 hv) |>.mp hfv]
          exact List.mem_cons_of_mem v0 hv
      · intro h
        rcases List.mem_cons.mp h with he | he
        · exact Bool.or_eq_true _ _ |>.mpr (Or.inl (hl v0 (by simp) |>.mpr he))
        · refine Bool.or_eq_true _ _ |>.mpr (Or.inr ?_)
          exact List.any_eq_true.mpr ⟨cv r, he, hl (cv r) (List.mem_cons_of_mem v0 he) |>.mpr rfl⟩

/-- Witness for C5: the concrete `item` query filtered by
`id ∈ {1, 3}` keeps exactly the row with `id = 1`, and the empty
candidate list returns the query itself. -/
theorem c5_col_in_witness :
    DERIVA_col_in egQ (Expr.col "item" "id") [] = egQ ∧
    (([Value.vint 1, Value.vint 3] : List Value) ≠ [] →
      ∃ v0 rest, ([Value.vint 1, Value.vint 3] : List Value) = v0 :: rest ∧
        DERIVA_col_in egQ (Expr.col "item" "id") [Value.vint 1, Value.vint 3] =
          egQ.filter (orOfEqs (Expr.col "item" "id") v0 rest)) ∧
    (([Value.vint 1, Value.vint 3] : List Value) ≠ [] →
      (DERIVA_col_in egQ (Expr.col "item" "id") [Value.vint 1, Value.vint 3]).call =
        .ok ([egRow1, egRow2].filter fun r =>
          ([Value.vint 1, Value.vint 3] : List Value).contains
            ((lookupCol r "item" "id").getD Value.vnull))) :=
  c5_col_in egQ (Expr.col "item" "id") [Value.vint 1, Value.vint 3] [egRow1, egRow2]
    (fun r => (lookupCol r "item" "id").getD Value.vnull)
    rfl
    (by
      intro r hr
      rcases List.mem_cons.mp hr with h | h
      · subst h; rfl
      · have h2 := List.mem_singleton.mp h
        subst h2; rfl)
    (by
      intro r hr
      rcases List.mem_cons.mp hr with h | h
      · subst h; decide
      · have h2 := List.mem_singleton.mp h
        subst h2; decide)
    (by decide)

/-! ## C9: filter composition -/

theorem qsFilter_cons (e : Expr) (r : Row) (rs : List Row) :
    qsFilter e (r :: rs) = (do
      let v ← e.eval r
      let rest ← qsFilter e rs
      pure (if v.sqlTrue then r :: rest else rest) : Except String (List Row)) := rfl

theorem qsFilter_conj (a b : Expr) :
    ∀ rs : List Row,
      (∀ r ∈ rs, (∃ va, a.eval r = .ok va) ∧ ∃ vb, b.eval r = .ok vb) →
      qsFilter a rs >>= qsFilter b = qsFilter (Expr.conj a b) rs
  | [], _ => by simp [qsFilter]
  | r :: rs, h => by
    obtain ⟨⟨va, hva⟩, vb, hvb⟩ := h r (by simp)
    have ih := qsFilter_conj a b rs (fun r2 h2 => h r2 (by simp [h2]))
    have hconj : (Expr.conj a b).eval r = .ok (Value.sqlAnd va vb) := by
      simp [Expr.eval, hva, hvb]
    rw [qsFilter_cons a, qsFilter_cons (Expr.conj a b), hva, hconj]
    simp only [except_bind_ok]
    cases hfa : qsFilter a rs with
    | error m =>
      have hcm : qsFilter (Expr.conj a b) rs = .error m := by rw [← ih, hfa]; rfl
      rw [hcm]
      rfl
    | ok ra =>
      have hqb : qsFilter (Expr.conj a b) rs = qsFilter b ra := by rw [← ih, hfa]; rfl
      rw [hqb]
      simp only [except_bind_ok, except_pure_eq_ok]
      cases hva_t : va.sqlTrue with
      | false =>
        have hA : (Value.sqlAnd va vb).sqlTrue = false := by
          rw [Value.sqlTrue_sqlAnd, hva_t]
          rfl
        rw [hA]
        simp only [if_neg Bool.false_ne_true]
        cases qsFilter b ra <;> rfl
      | true =>
        have hA : (Value.sqlAnd va vb).sqlTrue = vb.sqlTrue := by
          rw [Value.sqlTrue_sqlAnd, hva_t]
          simp
        rw [hA, if_pos rfl, qsFilter_cons b, hvb]
        rfl

/-- C9: for every table handle `t` and predicates `a`, `b` that
evaluate without error on the rows of `t` (predicates over existing
columns), `t.filter(a).filter(b)` and `t.filter(a & b)` — where `&` is
the predicate conjunction built by `DerivaCompatPrimitive.__and__` —
enumerate the same entities and report the same count. -/
theorem c9_filter_composition (t : DerivaCompatTable) (a b : Expr)
    (rs : List Row)
    (hcall : t.as_query.call = .ok rs)
    (ha : ∀ r ∈ rs, ∃ v, a.eval r = .ok v)
    (hb : ∀ r ∈ rs, ∃ v, b.eval r = .ok v) :
    ((t.filter a).filter b).entities = (t.filter (Expr.conj a b)).entities ∧
    ((t.filter a).filter b).count = (t.filter (Expr.conj a b)).count := by
  have hcalls : ((t.filter a).filter b).call = (t.filter (Expr.conj a b)).call := by
    show ((t.as_query.filter a).filter b).call = (t.as_query.filter (Expr.conj a b)).call
    simp only [call_filter, hcall, except_bind_ok]
    exact qsFilter_conj a b rs (fun r hr => ⟨ha r hr, hb r hr⟩)
  constructor
  · unfold DerivaCompatQuery.entities
    rw [hcalls]
    rfl
  · unfold DerivaCompatQuery.count
    rw [hcalls]

/-- Witness for C9 at the concrete `item` table with two concrete
predicates. -/
theorem c9_filter_composition_witness :
    ((egItem.filter (Expr.eq (Expr.col "item" "category_id") (Expr.lit (Value.vint 10)))).filter
        (Expr.ne (Expr.col "item" "id") (Expr.lit (Value.vint 2)))).entities =
      (egItem.filter (Expr.conj
        (Expr.eq (Expr.col "item" "category_id") (Expr.lit (Value.vint 10)))
        (Expr.ne (Expr.col "item" "id") (Expr.lit (Value.vint 2))))).entities ∧
    ((egItem.filter (Expr.eq (Expr.col "item" "category_id") (Expr.lit (Value.vint 10)))).filter
        (Expr.ne (Expr.col "item" "id") (Expr.lit (Value.vint 2)))).count =
      (egItem.filter (Expr.conj
        (Expr.eq (Expr.col "item" "category_id") (Expr.lit (Value.vint 10)))
        (Expr.ne (Expr.col "item" "id") (Expr.lit (Value.vint 2))))).count :=
  c9_filter_composition egItem
    (Expr.eq (Expr.col "item" "category_id") (Expr.lit (Value.vint 10)))
    (Expr.ne (Expr.col "item" "id") (Expr.lit (Value.vint 2)))
    [egRow1, egRow2]
    rfl
    (by
      intro r hr
      rcases List.mem_cons.mp hr with h | h
      · subst h; exact ⟨_, rfl⟩
      · have h2 := List.mem_singleton.mp h
        subst h2; exact ⟨_, rfl⟩)
    (by
      intro r hr
      rcases List.mem_cons.mp hr with h | h
      · subst h; exact ⟨_, rfl⟩
      · have h2 := List.mem_singleton.mp h
        subst h2; exact ⟨_, rfl⟩)

/-! ## C3: entities -/

theorem mem_entityOfRow (subjName : String) (r : Row) (k s : String) :
    (k, s) ∈ entityOfRow subjName r ↔
      ∃ c : Cell, c ∈ r ∧ c.table = subjName ∧ c.col = k ∧
        c.value.truthy = true ∧ s = c.value.pyStr := by
  unfold entityOfRow
  simp only [List.mem_map, List.mem_filter, Bool.and_eq_true, beq_iff_eq, Prod.mk.injEq]
  constructor
  · rintro ⟨c, ⟨hc, ht, htr⟩, hk, hs⟩
    exact ⟨c, hc, ht, hk, htr, hs.symm⟩
  · rintro ⟨c, hc, ht, hk, htr, hs⟩
    exact ⟨c, ⟨hc, ht, htr⟩, hk, hs.symm⟩

/-- C3: on an executed query with result rows `rs`, `entities()`
produces exactly one mapping per result row, in order; a key `k` with
value `s` is present in the mapping of a row exactly when some cell of
the subject table in that row has column `k`, a (Python-)truthy value
`v`, and `s = str(v)` — in particular no key is present for a column
whose value in that row is empty/null-like, and every present value is
the stringification of the column's value. -/
theorem c3_entities_shape (q : DerivaCompatQuery) (rs : List Row)
    (hcall : q.call = .ok rs) :
    q.entities = .ok (rs.map (entityOfRow q.subj.name)) ∧
    ∀ r ∈ rs, ∀ k s : String,
      ((k, s) ∈ entityOfRow q.subj.name r ↔
        ∃ c : Cell, c ∈ r ∧ c.table = q.subj.name ∧ c.col = k ∧
          c.value.truthy = true ∧ s = c.value.pyStr) := by
  refine ⟨?_, ?_⟩
  · unfold DerivaCompatQuery.entities
    rw [hcall]
    rfl
  · intro r _ k s
    exact mem_entityOfRow q.subj.name r k s

/-- Witness for C3 at the concrete `item` query (whose second row has
an empty, hence omitted, `name`). -/
theorem c3_entities_shape_witness :
    egQ.entities = .ok ([egRow1, egRow2].map (entityOfRow egQ.subj.name)) ∧
    ∀ r ∈ [egRow1, egRow2], ∀ k s : String,
      ((k, s) ∈ entityOfRow egQ.subj.name r ↔
        ∃ c : Cell, c ∈ r ∧ c.table = egQ.subj.name ∧ c.col = k ∧
          c.value.truthy = true ∧ s = c.value.pyStr) :=
  c3_entities_shape egQ [egRow1, egRow2] rfl

/-! ## C2: link join kinds -/

theorem matchRows_pointwise (onp : Expr) (p : Row → Bool) (r : Row) :
    ∀ ts : List Row,
      (∀ t ∈ ts, ∃ v, onp.eval (r ++ t) = .ok v ∧ v.sqlTrue = p (r ++ t)) →
      matchRows r onp ts = .ok ((ts.filter fun t => p (r ++ t)).map fun t => r ++ t)
  | [], _ => by simp [matchRows]
  | t :: ts, h => by
    obtain ⟨v, hv, hs⟩ := h t (by simp)
    have ih := matchRows_pointwise onp p r ts (fun t2 h2 => h t2 (by simp [h2]))
    unfold matchRows
    rw [hv]
    simp only [except_bind_ok, ih, except_pure_eq_ok, hs, List.filter_cons]
    cases p (r ++ t) <;> simp

theorem qsJoin_pointwise (ts : List Row) (onp : Expr) (p : Row → Bool) :
    ∀ rs : List Row,
      (∀ r ∈ rs, ∀ t ∈ ts, ∃ v, onp.eval (r ++ t) = .ok v ∧ v.sqlTrue = p (r ++ t)) →
      qsJoin ts onp rs = .ok (innerJoinSpec ts p rs)
  | [], _ => by simp [qsJoin, innerJoinSpec]
  | r :: rs, h => by
    have hm := matchRows_pointwise onp p r ts (h r (by simp))
    have ih := qsJoin_pointwise ts onp p rs (fun r2 h2 => h r2 (by simp [h2]))
    unfold qsJoin
    rw [hm]
    simp only [except_bind_ok, ih, except_pure_eq_ok]
    simp [innerJoinSpec]

theorem qsOuterJoin_pointwise (ts : List Row) (tname : String) (cols : List String)
    (onp : Expr) (p : Row → Bool) :
    ∀ rs : List Row,
      (∀ r ∈ rs, ∀ t ∈ ts, ∃ v, onp.eval (r ++ t) = .ok v ∧ v.sqlTrue = p (r ++ t)) →
      qsOuterJoin ts tname cols onp rs = .ok (outerJoinSpec ts (nullRow tname cols) p rs)
  | [], _ => by simp [qsOuterJoin, outerJoinSpec]
  | r :: rs, h => by
    have hm := matchRows_pointwise onp p r ts (h r (by simp))
    have ih := qsOuterJoin_pointwise ts tname cols onp p rs (fun r2 h2 => h r2 (by simp [h2]))
    unfold qsOuterJoin
    rw [hm]
    simp only [except_bind_ok, ih, except_pure_eq_ok]
    simp [outerJoinSpec]

/-- C2: `link` with join kind `left` produces a handle whose executed
query is the plain (inner) join of the accumulated query — run from the
new subject's base rows — with the prior subject table on the
predicate: only matching combined rows survive.  Join kind `full`
produces a handle whose executed query is the outer join on the same
predicate: combined matching rows, plus each unmatched row padded with
`NULL`s for the prior subject's columns.  So `left` performs an
inner-style join and `full` an outer join, reproducing the flagged
source behaviour rather than the names' implied semantics. -/
theorem c2_link_join_kinds (q : DerivaCompatQuery) (other : DerivaCompatTable)
    (p : Expr) (pb : Row → Bool) (base mid ts : List Row)
    (hbase : rowsOf q.pkg other.name = .ok base)
    (hmid : q.query q.pkg base = .ok mid)
    (hts : rowsOf q.pkg q.subj.name = .ok ts)
    (hev : ∀ r ∈ mid, ∀ t ∈ ts, ∃ v, p.eval (r ++ t) = .ok v ∧ v.sqlTrue = pb (r ++ t)) :
    (∃ q1, q.link other p JoinType.left = .ok q1 ∧ q1.subj = other ∧
      q1.call = .ok (innerJoinSpec ts pb mid)) ∧
    (∃ q2, q.link other p JoinType.full = .ok q2 ∧ q2.subj = other ∧
      q2.call = .ok (outerJoinSpec ts (nullRow q.subj.name q.subj.columns) pb mid)) := by
  constructor
  · refine ⟨_, rfl, rfl, ?_⟩
    unfold DerivaCompatQuery.call mkQuery
    simp only
    rw [hbase]
    simp only [except_bind_ok]
    rw [hmid]
    simp only [except_bind_ok]
    rw [hts]
    simp only [except_bind_ok]
    exact qsJoin_pointwise ts p pb mid hev
  · refine ⟨_, rfl, rfl, ?_⟩
    unfold DerivaCompatQuery.call mkQuery
    simp only
    rw [hbase]
    simp only [except_bind_ok]
    rw [hmid]
    simp only [except_bind_ok]
    rw [hts]
    simp only [except_bind_ok]
    exact qsOuterJoin_pointwise ts q.subj.name q.subj.columns p pb mid hev

/-- Witness for C2: linking the concrete `item` query to `category` on
`item.category_id == category.id`.  With join kind `left` the row pair
for the matching category survives and the unmatched category row is
dropped; with join kind `full` the unmatched row is kept, padded with
`NULL`s for the `item` columns. -/
theorem c2_link_join_kinds_witness :
    (∃ q1, egQ.link egCategory
        (Expr.eq (Expr.col "item" "category_id") (Expr.col "category" "id"))
        JoinType.left = .ok q1 ∧
      q1.subj = egCategory ∧
      q1.call = .ok (innerJoinSpec [egRow1, egRow2]
        (fun rr =>
          match (Expr.eq (Expr.col "item" "category_id") (Expr.col "category" "id")).eval rr with
          | .ok v => v.sqlTrue
          | .error _ => false)
        [egCatRow, egCatRowB])) ∧
    (∃ q2, egQ.link egCategory
        (Expr.eq (Expr.col "item" "category_id") (Expr.col "category" "id"))
        JoinType.full = .ok q2 ∧
      q2.subj = egCategory ∧
      q2.call = .ok (outerJoinSpec [egRow1, egRow2]
        (nullRow egQ.subj.name egQ.subj.columns)
        (fun rr =>
          match (Expr.eq (Expr.col "item" "category_id") (Expr.col "category" "id")).eval rr with
          | .ok v => v.sqlTrue
          | .error _ => false)
        [egCatRow, egCatRowB])) :=
  c2_link_join_kinds egQ egCategory
    (Expr.eq (Expr.col "item" "category_id") (Expr.col "category" "id"))
    (fun rr =>
      match (Expr.eq (Expr.col "item" "category_id") (Expr.col "category" "id")).eval rr with
      | .ok v => v.sqlTrue
      | .error _ => false)
    [egCatRow, egCatRowB] [egCatRow, egCatRowB] [egRow1, egRow2]
    rfl rfl rfl
    (by
      intro r hr t ht
      rcases List.mem_cons.mp hr with h | h
      · subst h
        rcases List.mem_cons.mp ht with h2 | h2
        · subst h2; exact ⟨_, rfl, rfl⟩
        · have h3 := List.mem_singleton.mp h2
          subst h3; exact ⟨_, rfl, rfl⟩
      · have h4 := List.mem_singleton.mp h
        subst h4
        rcases List.mem_cons.mp ht with h2 | h2
        · subst h2; exact ⟨_, rfl, rfl⟩
        · have h3 := List.mem_singleton.mp h2
          subst h3; exact ⟨_, rfl, rfl⟩)

/-! ## C1: construction is lazy -/

theorem applyOp_withPkg (q : DerivaCompatQuery) (pk : DerivaCompatPkg) (op : BuildOp) :
    applyOp (q.withPkg pk) op = (applyOp q op).map (fun q2 => q2.withPkg pk) := by
  cases op with
  | filterStep e => rfl
  | linkStep t onp jt => cases jt <;> rfl
  | groupbyStep es => rfl
  | pivotStep t => rfl

theorem applyOp_supported_ok (q : DerivaCompatQuery) (op : BuildOp) (h : op.supported) :
    ∃ q2, applyOp q op = .ok q2 := by
  cases op with
  | filterStep e => exact ⟨_, rfl⟩
  | linkStep t onp jt => rcases h with h | h <;> subst h <;> exact ⟨_, rfl⟩
  | groupbyStep es => exact ⟨_, rfl⟩
  | pivotStep t => exact ⟨_, rfl⟩

theorem buildChain_ok :
    ∀ (ops : List BuildOp) (q : DerivaCompatQuery),
      (∀ op ∈ ops, op.supported) → ∃ q2, buildChain q ops = .ok q2
  | [], q, _ => ⟨q, rfl⟩
  | op :: ops, q, h => by
    obtain ⟨q1, hq1⟩ := applyOp_supported_ok q op (h op (by simp))
    obtain ⟨q2, hq2⟩ := buildChain_ok ops q1 (fun o ho => h o (by simp [ho]))
    refine ⟨q2, ?_⟩
    unfold buildChain
    rw [hq1]
    simpa using hq2

theorem buildChain_withPkg :
    ∀ (ops : List BuildOp) (q : DerivaCompatQuery) (pk : DerivaCompatPkg),
      buildChain (q.withPkg pk) ops = (buildChain q ops).map (fun q2 => q2.withPkg pk)
  | [], _, _ => rfl
  | op :: ops, q, pk => by
    unfold buildChain
    rw [applyOp_withPkg]
    cases h : applyOp q op with
    | error m => rfl
    | ok q1 =>
      show buildChain (q1.withPkg pk) ops = _
      rw [buildChain_withPkg ops q1 pk]
      rfl

/-- C1: building a query never executes it.  For every query handle and
every chain of `filter`, supported `link`, `groupby` and `pivot` steps,
with arbitrary — including malformed or missing-column — predicates,
construction succeeds and produces the same handle whatever the backing
store holds (so it never reads the store); the failure of a malformed
predicate surfaces only when the query is enumerated via `entities()`
or aggregated via `count()`, which then return the predicate's
error. -/
theorem c1_construction_executes_nothing (q : DerivaCompatQuery) (ops : List BuildOp)
    (hsup : ∀ op ∈ ops, op.supported) :
    (∃ q2, buildChain q ops = .ok q2 ∧
      ∀ pk : DerivaCompatPkg, buildChain (q.withPkg pk) ops = .ok (q2.withPkg pk)) ∧
    (∀ msg : String, ∀ r : Row, ∀ rest : List Row,
      q.call = .ok (r :: rest) →
      (q.filter (Expr.malformed msg)).count = .error msg ∧
      (q.filter (Expr.malformed msg)).entities = .error msg) := by
  constructor
  · obtain ⟨q2, hq2⟩ := buildChain_ok ops q hsup
    refine ⟨q2, hq2, fun pk => ?_⟩
    rw [buildChain_withPkg ops q pk, hq2]
    rfl
  · intro msg r rest hcall
    have hc : (q.filter (Expr.malformed msg)).call = .error msg := by
      rw [call_filter, hcall]
      rfl
    constructor
    · unfold DerivaCompatQuery.count
      rw [hc]
      rfl
    · unfold DerivaCompatQuery.entities
      rw [hc]
      rfl

/-- Witness for C1: a concrete five-step chain — containing a malformed
predicate and a reference to a non-existent column — is constructed
successfully, and identically over an empty store; the malformed filter
fails only at `count()`/`entities()`. -/
theorem c1_construction_executes_nothing_witness :
    (∃ q2, buildChain egQ egOps = .ok q2 ∧
      buildChain (egQ.withPkg (DerivaCompatPkg.mk [])) egOps =
        .ok (q2.withPkg (DerivaCompatPkg.mk []))) ∧
    ((egQ.filter (Expr.malformed "boom")).count = .error "boom" ∧
      (egQ.filter (Expr.malformed "boom")).entities = .error "boom") := by
  have h := c1_construction_executes_nothing egQ egOps
    (by
      intro op hop
      simp only [egOps, List.mem_cons, List.not_mem_nil, or_false] at hop
      rcases hop with h | h | h | h | h <;> subst h <;> simp [BuildOp.supported])
  obtain ⟨⟨q2, hq2, hpk⟩, h2⟩ := h
  exact ⟨⟨q2, hq2, hpk (DerivaCompatPkg.mk [])⟩, h2 "boom" egRow1 [egRow2] rfl⟩

/-! ## C10: path mappings are fresh -/

/-- C10: constructing a derived handle with `filter`, `groupby`,
`pivot` or a supported `link` never changes the parent's path mapping —
in the embedding each handle's stored path is a pure function of the
constructor arguments: the derived handle's path is the parent's path
freshly extended (`upsert`) with the new subject's entry.  In
particular the query constructor's default empty path is never
polluted: a table's `_as_query` always produces the singleton path
containing just that table, no matter what other handles were
constructed before. -/
theorem c10_path_mapping (t : DerivaCompatTable) (q : DerivaCompatQuery)
    (e : Expr) (other : DerivaCompatTable) (p : Expr) (es : List Expr) :
    t.as_query.path = [(t.name, t.with_qs t.qs)] ∧
    (q.filter e).path = upsert q.path q.subj.name (q.subj.with_qs (q.filter e).query) ∧
    (q.groupby es).path = upsert q.path q.subj.name (q.subj.with_qs (q.groupby es).query) ∧
    (q.pivot other).path = upsert q.path other.name (other.with_qs q.query) ∧
    (∃ q1, q.link other p JoinType.left = .ok q1 ∧
      q1.path = upsert q.path other.name (other.with_qs q1.query)) ∧
    (∃ q2, q.link other p JoinType.full = .ok q2 ∧
      q2.path = upsert q.path other.name (other.with_qs q2.query)) :=
  ⟨rfl, rfl, rfl, rfl, ⟨_, rfl, rfl⟩, ⟨_, rfl, rfl⟩⟩

/-! ## C4, C6: the loading loop -/

theorem lookup_upsert {α : Type} :
    ∀ (l : List (String × α)) (k : String) (v : α),
      (upsert l k v).lookup k = some v
  | [], k, v => by simp [upsert, List.lookup]
  | (k0, v0) :: rest, k, v => by
    unfold upsert
    by_cases hp : k0 = k
    · subst hp
      simp [List.lookup]
    · rw [if_neg (by simp [hp])]
      have hb2 : (k == k0) = false := by simp [Ne.symm hp]
      simpa [List.lookup, hb2] using lookup_upsert rest k v

theorem loadResources_cons_error {st : Store} {g : ResourceGroup} {gs : List ResourceGroup}
    {e : ReadError} (hp : processResource st g = .error e) :
    loadResources st (g :: gs) = (st, some e) := by
  unfold loadResources
  rw [hp]

theorem loadResources_cons_ok {st : Store} {g : ResourceGroup} {gs : List ResourceGroup}
    {st2 : Store} (hp : processResource st g = .ok st2) :
    loadResources st (g :: gs) = loadResources st2 gs := by
  show (match processResource st g with
    | .error e => (st, some e)
    | .ok st1 => loadResources st1 gs) = loadResources st2 gs
  rw [hp]

theorem loadResources_ok_append :
    ∀ (pre : List ResourceGroup) (st st1 : Store) (rest : List ResourceGroup),
      loadResources st pre = (st1, none) →
      loadResources st (pre ++ rest) = loadResources st1 rest
  | [], st, st1, rest, h => by
    have h1 : st = st1 := by
      have h2 := congrArg Prod.fst h
      simpa [loadResources] using h2
    subst h1
    rfl
  | g :: gs, st, st1, rest, h => by
    cases hp : processResource st g with
    | error e =>
      rw [loadResources_cons_error hp] at h
      exact absurd (congrArg Prod.snd h) (by simp)
    | ok st2 =>
      rw [loadResources_cons_ok hp] at h
      rw [List.cons_append, loadResources_cons_ok hp]
      exact loadResources_ok_append gs st2 st1 rest h

/-- C4: if, after some resources loaded fine (producing store `st1`), a
resource group's row-read fails with `e`, then the whole load stops at
that group: the result is exactly `(st1, some e)` — the tables and
indexes committed for the earlier resources remain, the groups after
the failing one are never processed (no retry), the propagated error is
the original read error `e` with its embedded per-row detail
(`e.errors`) intact — and no table was created for the failing
resource. -/
theorem c4_read_failure_aborts (st st1 : Store) (pre post : List ResourceGroup)
    (g : ResourceGroup) (e : ReadError)
    (hpre : loadResources st pre = (st1, none))
    (hread : concatReads g.reads = .error e)
    (hfresh : st1.tables.lookup g.name = none) :
    loadResources st (pre ++ g :: post) = (st1, some e) ∧
    (loadResources st (pre ++ g :: post)).1.tables.lookup g.name = none := by
  have hp : processResource st1 g = .error e := by
    unfold processResource
    rw [hread]
    rfl
  have hmain : loadResources st (pre ++ g :: post) = (st1, some e) := by
    rw [loadResources_ok_append pre st st1 (g :: post) hpre]
    exact loadResources_cons_error hp
  refine ⟨hmain, ?_⟩
  rw [hmain]
  exact hfresh

/-- Witness for C4: loading `good`, then the failing `bad` group, then
an untouched trailing group, stops with the original read error and
only the `good` table materialized. -/
theorem c4_read_failure_aborts_witness :
    loadResources egEmptyStore ([egGroupGood] ++ egGroupBad :: [egGroupEmpty]) =
      (egStoreGood, some egReadErr) ∧
    (loadResources egEmptyStore
      ([egGroupGood] ++ egGroupBad :: [egGroupEmpty])).1.tables.lookup "bad" = none :=
  c4_read_failure_aborts egEmptyStore egStoreGood [egGroupGood] [egGroupEmpty]
    egGroupBad egReadErr rfl rfl rfl

/-- Counterexample to C6 as stated: loading the concrete empty
resource group (declared fields `id`, `note`) materializes its table
with columns `index`, `id`, `note` — the unnamed dataframe index is
written as an extra `index` column — so the column set is not exactly
the declared one. -/
theorem c6_empty_resource_counterexample :
    (loadResources egEmptyStore [egGroupEmpty]).1.tables.lookup "emptyrc" =
      some ⟨["index", "id", "note"], [], none⟩ ∧
    (["index", "id", "note"] : List String) ≠ egGroupEmpty.schema.fields :=
  ⟨rfl, by decide⟩

/-- C6 (amended): a resource group whose contributing reads supply zero
rows is materialized as a table with zero rows whose columns are the
declared column set preceded by one auto-generated `index` column
(`to_sql(index=True, index_label=None)` writes the unnamed dataframe
index); no primary key is applied to it (`pk = none`) and no index —
in particular no primary-key index — is created over it. -/
theorem c6_empty_resource (st : Store) (g : ResourceGroup)
    (hread : concatReads g.reads = .ok []) :
    processResource st g = .ok
      { st with tables := upsert st.tables g.name ⟨"index" :: g.schema.fields, [], none⟩ } ∧
    (upsert st.tables g.name (⟨"index" :: g.schema.fields, [], none⟩ : LoadedTable)).lookup g.name =
      some ⟨"index" :: g.schema.fields, [], none⟩ ∧
    ({ st with tables := upsert st.tables g.name ⟨"index" :: g.schema.fields, [], none⟩ } : Store).indexes
      = st.indexes := by
  refine ⟨?_, lookup_upsert st.tables g.name _, rfl⟩
  unfold processResource
  rw [hread]
  rfl

/-- Witness for amended C6: the concrete empty resource group
materializes as a zero-row table with the `index` column plus its
declared columns, no primary key and no new index. -/
theorem c6_empty_resource_witness :
    processResource egEmptyStore egGroupEmpty = .ok
      { egEmptyStore with tables := upsert egEmptyStore.tables "emptyrc" ⟨["index", "id", "note"], [], none⟩ } ∧
    (upsert egEmptyStore.tables "emptyrc"
        (⟨["index", "id", "note"], [], none⟩ : LoadedTable)).lookup "emptyrc" =
      some ⟨["index", "id", "note"], [], none⟩ ∧
    ({ egEmptyStore with tables := upsert egEmptyStore.tables "emptyrc" ⟨["index", "id", "note"], [], none⟩ } : Store).indexes = egEmptyStore.indexes :=
  c6_empty_resource egEmptyStore egGroupEmpty rfl

end DerivaDatapackage
